import Mathlib

/-!
Verification of the asset-manager chaincode
(`src/fabric-samples/chaincode/asset-manager/asset-manager.go`).

The Go file implements CRUD operations plus a per-key history query on top
of a versioned key-value store (the Fabric world state).  We embed the
world state as a ledger: an association list for the current key/value
map (kept in lexicographic key order, matching the range scan of the store)
together with a per-key, append-only list of key modifications (the
history stream delivered by `GetHistoryForKey`).

Byte strings are modelled by the inductive `Bytes`: `Bytes.enc a` stands
for the (always non-empty) JSON encoding `json.Marshal` produces for the
asset `a`, and `Bytes.raw p` stands for any other byte string `p`
(possibly empty), which `json.Unmarshal` fails to parse as an `Asset`.
The Go `[]byte` distinction between a nil slice and a present (possibly
empty) slice is modelled by `Option Bytes`: `none` is the nil slice.

The two `float64` fields carry no arithmetic anywhere in the chaincode
(they are only stored, encoded and compared), so they are modelled by an
arbitrary exact numeric carrier, `Int`.
-/

/-- The `Asset` struct of the chaincode: eight JSON-tagged fields keyed by
`DEALERID`. -/
structure Asset where
  DEALERID : String
  MSISDN : String
  MPIN : String
  BALANCE : Int
  STATUS : String
  TRANSAMOUNT : Int
  TRANSTYPE : String
  REMARKS : String
deriving DecidableEq

/-- The Go zero-value asset with only `DEALERID` set, as built by
`asset = Asset{DEALERID: dealerID}` in `GetAssetHistory` (strings default
to `""`, numbers to `0`). -/
def placeholderAsset (dealerID : String) : Asset :=
  { DEALERID := dealerID, MSISDN := "", MPIN := "", BALANCE := 0,
    STATUS := "", TRANSAMOUNT := 0, TRANSTYPE := "", REMARKS := "" }

/-- Byte strings held by the store.  `enc a` is the JSON encoding of the
asset `a` (non-empty); `raw p` is any other payload (possibly empty). -/
inductive Bytes where
  | enc (a : Asset)
  | raw (p : List Nat)
deriving DecidableEq

/-- Go `len(b) == 0`.  A marshalled asset is never empty (the encoding
always contains at least the field names). -/
def Bytes.isEmpty : Bytes → Bool
  | .enc _ => false
  | .raw p => p.isEmpty

/-- Model of `json.Marshal` on an `Asset`: total (the struct has no unmarshalable
fields), always producing non-empty bytes. -/
def jsonMarshal (a : Asset) : Bytes := Bytes.enc a

/-- Model of `json.Unmarshal` of stored bytes into an `Asset`: succeeds exactly on
the canonical encodings, fails (returns `none`) on any other payload,
including the empty one. -/
def jsonUnmarshal : Bytes → Option Asset
  | .enc a => some a
  | .raw _ => none

/-- One element of the per-key history stream of the store, as delivered
by `GetHistoryForKey` (Fabric `KeyModification`): transaction id, commit
timestamp, value bytes (empty for deletions) and the deletion flag. -/
structure KeyModification where
  txId : String
  timestamp : Nat
  value : Bytes
  isDelete : Bool
deriving DecidableEq

/-- The `HistoryQueryResult` struct returned by `GetAssetHistory`. -/
structure HistoryQueryResult where
  record : Asset
  txId : String
  timestamp : Nat
  isDelete : Bool
deriving DecidableEq

/-- Lookup in the world-state association list (`GetState`): `none` is the
nil slice Go receives for an absent key. -/
def getKV : List (String × Bytes) → String → Option Bytes
  | [], _ => none
  | (k1, v1) :: rest, k => if k = k1 then some v1 else getKV rest k

/-- Write into the world-state association list, keeping it sorted by key
so that a full-range scan enumerates keys in lexicographic order, as the
store does. -/
def putKV : List (String × Bytes) → String → Bytes → List (String × Bytes)
  | [], k, v => [(k, v)]
  | (k1, v1) :: rest, k, v =>
    if k < k1 then (k, v) :: (k1, v1) :: rest
    else if k = k1 then (k, v) :: rest
    else (k1, v1) :: putKV rest k v

/-- Remove a key from the world-state association list (`DelState`). -/
def delKV : List (String × Bytes) → String → List (String × Bytes)
  | [], _ => []
  | (k1, v1) :: rest, k =>
    if k = k1 then delKV rest k else (k1, v1) :: delKV rest k

/-- The transaction context relevant to the model: the id and commit
timestamp the store assigns to the write of the current transaction. -/
structure TxCtx where
  txId : String
  ts : Nat
deriving DecidableEq

/-- The versioned store: the current world state (sorted association
list scanned by `GetStateByRange`) and the per-key append-only history
stream read by `GetHistoryForKey`. -/
structure Ledger where
  world : List (String × Bytes)
  hist : String → List KeyModification

/-- The empty ledger: no keys, no history. -/
def Ledger.empty : Ledger :=
  { world := [], hist := fun _ => [] }

/-- Stub call `GetState`: raw bytes for a key, `none` for the nil slice. -/
def GetState (L : Ledger) (k : String) : Option Bytes :=
  getKV L.world k

/-- Stub call `PutState`: writes the value at the key and appends a non-delete
modification carrying the written value to the history stream of the key. -/
def PutState (L : Ledger) (tx : TxCtx) (k : String) (v : Bytes) : Ledger :=
  { world := putKV L.world k v
    hist := fun k2 =>
      if k2 = k then
        L.hist k ++ [{ txId := tx.txId, timestamp := tx.ts, value := v, isDelete := false }]
      else L.hist k2 }

/-- Stub call `DelState`: removes the key from the world state and appends a
tombstone (empty value, `isDelete = true`) to the history stream of the key. -/
def DelState (L : Ledger) (tx : TxCtx) (k : String) : Ledger :=
  { world := delKV L.world k
    hist := fun k2 =>
      if k2 = k then
        L.hist k ++ [{ txId := tx.txId, timestamp := tx.ts, value := Bytes.raw [], isDelete := true }]
      else L.hist k2 }

/-- The failure taxonomy of the chaincode, one constructor per distinct
error site of the Go file. -/
inductive ChainErr where
  /-- From `fmt.Errorf("the asset %s already exists", dealerID)` -/
  | alreadyExists (dealerID : String)
  /-- From `fmt.Errorf("the asset %s does not exist", dealerID)` -/
  | notFound (dealerID : String)
  /-- a `json.Unmarshal` failure -/
  | decodeError
  /-- From `fmt.Errorf("failed to read from world state: %v", err)` and the
  other wrappers around a failing store call -/
  | storeUnavailable (msg : String)
deriving DecidableEq

/-- Model of `AssetExists`: `GetState` then `assetJSON != nil` — presence of a
value, whether empty or not. -/
def AssetExists (L : Ledger) (dealerID : String) : Bool :=
  (GetState L dealerID).isSome

/-- Model of `CreateAsset`: existence check, `AlreadyExists` on a live key,
otherwise marshal the full record from the arguments and `PutState` it.
The returned ledger is the post-state of the successful transaction. -/
def CreateAsset (L : Ledger) (tx : TxCtx) (dealerID msisdn mpin : String)
    (balance : Int) (status : String) (transAmount : Int)
    (transType remarks : String) : Except ChainErr Ledger :=
  if AssetExists L dealerID then
    .error (.alreadyExists dealerID)
  else
    let asset : Asset :=
      { DEALERID := dealerID, MSISDN := msisdn, MPIN := mpin, BALANCE := balance,
        STATUS := status, TRANSAMOUNT := transAmount, TRANSTYPE := transType,
        REMARKS := remarks }
    .ok (PutState L tx dealerID (jsonMarshal asset))

/-- Model of `ReadAsset` as a function of the outcome of the `GetState` call it
makes (`Except.error e` models a failing store call): store failure is
wrapped, a nil slice is `NotFound`, unparsable bytes are a decode
failure, otherwise the decoded asset is returned. -/
def ReadAssetG (dealerID : String) : Except String (Option Bytes) → Except ChainErr Asset
  | .error e => .error (.storeUnavailable e)
  | .ok none => .error (.notFound dealerID)
  | .ok (some bs) =>
    match jsonUnmarshal bs with
    | none => .error .decodeError
    | some a => .ok a

/-- Model of `ReadAsset` against a ledger whose store call succeeds. -/
def ReadAsset (L : Ledger) (dealerID : String) : Except ChainErr Asset :=
  ReadAssetG dealerID (.ok (GetState L dealerID))

/-- Model of `UpdateAsset`: existence check, `NotFound` on a dead key, otherwise
a full overwrite — the stored record is rebuilt entirely from the
arguments and `PutState` replaces the previous value. -/
def UpdateAsset (L : Ledger) (tx : TxCtx) (dealerID msisdn mpin : String)
    (balance : Int) (status : String) (transAmount : Int)
    (transType remarks : String) : Except ChainErr Ledger :=
  if AssetExists L dealerID then
    let asset : Asset :=
      { DEALERID := dealerID, MSISDN := msisdn, MPIN := mpin, BALANCE := balance,
        STATUS := status, TRANSAMOUNT := transAmount, TRANSTYPE := transType,
        REMARKS := remarks }
    .ok (PutState L tx dealerID (jsonMarshal asset))
  else
    .error (.notFound dealerID)

/-- Model of `DeleteAsset`: existence check, `NotFound` on a dead key, otherwise
`DelState`. -/
def DeleteAsset (L : Ledger) (tx : TxCtx) (dealerID : String) : Except ChainErr Ledger :=
  if AssetExists L dealerID then
    .ok (DelState L tx dealerID)
  else
    .error (.notFound dealerID)

/-- The loop body of `GetAllAssets`: unmarshal every scanned value in
scan order; the first unparsable value aborts the whole query. -/
def decodeAll : List (String × Bytes) → Except ChainErr (List Asset)
  | [] => .ok []
  | (_, v) :: rest =>
    match jsonUnmarshal v with
    | none => .error .decodeError
    | some a =>
      match decodeAll rest with
      | .error e => .error e
      | .ok tl => .ok (a :: tl)

/-- Model of `GetAllAssets`: `GetStateByRange("", "")` — a full-range scan over the
world state — decoding each value. -/
def GetAllAssets (L : Ledger) : Except ChainErr (List Asset) :=
  decodeAll L.world

/-- The loop body of `GetAssetHistory`, over the history stream of the key:
for each modification, the value is unmarshalled when `len(Value) > 0`
(a failure aborts the whole query) and replaced by the zero-value
placeholder asset when the value is empty; transaction id, timestamp and
deletion flag are copied from the stream entry. -/
def historyRows (dealerID : String) : List KeyModification → Except ChainErr (List HistoryQueryResult)
  | [] => .ok []
  | m :: rest =>
    if m.value.isEmpty then
      match historyRows dealerID rest with
      | .error e => .error e
      | .ok tl =>
        .ok ({ record := placeholderAsset dealerID, txId := m.txId,
               timestamp := m.timestamp, isDelete := m.isDelete } :: tl)
    else
      match jsonUnmarshal m.value with
      | none => .error .decodeError
      | some a =>
        match historyRows dealerID rest with
        | .error e => .error e
        | .ok tl =>
          .ok ({ record := a, txId := m.txId,
                 timestamp := m.timestamp, isDelete := m.isDelete } :: tl)

/-- Model of `GetAssetHistory`: projects the history stream of the key, in stream
order, into `HistoryQueryResult` rows. -/
def GetAssetHistory (L : Ledger) (dealerID : String) : Except ChainErr (List HistoryQueryResult) :=
  historyRows dealerID (L.hist dealerID)

/-! ## Invocation traces

The chaincode is invoked one transaction at a time; a transaction that
returns an error is not committed, so the ledger is unchanged.  `Op`
enumerates the three mutating endpoints, `runTrace` replays a call
sequence. -/

/-- One invocation of a mutating chaincode endpoint, with the transaction
id and commit timestamp the store assigns to it. -/
inductive Op where
  | create (tx : TxCtx) (dealerID msisdn mpin : String) (balance : Int)
      (status : String) (transAmount : Int) (transType remarks : String)
  | update (tx : TxCtx) (dealerID msisdn mpin : String) (balance : Int)
      (status : String) (transAmount : Int) (transType remarks : String)
  | delete (tx : TxCtx) (dealerID : String)
deriving DecidableEq

/-- The key an invocation targets. -/
def Op.key : Op → String
  | .create _ dealerID _ _ _ _ _ _ _ => dealerID
  | .update _ dealerID _ _ _ _ _ _ _ => dealerID
  | .delete _ dealerID => dealerID

/-- The commit timestamp of an invocation. -/
def Op.ts : Op → Nat
  | .create tx _ _ _ _ _ _ _ _ => tx.ts
  | .update tx _ _ _ _ _ _ _ _ => tx.ts
  | .delete tx _ => tx.ts

/-- The history-stream entry a successful invocation appends to its key:
the marshalled record for create/update, a tombstone for delete. -/
def Op.mod : Op → KeyModification
  | .create tx dealerID msisdn mpin balance status transAmount transType remarks =>
    { txId := tx.txId, timestamp := tx.ts
      value := jsonMarshal
        { DEALERID := dealerID, MSISDN := msisdn, MPIN := mpin, BALANCE := balance,
          STATUS := status, TRANSAMOUNT := transAmount, TRANSTYPE := transType,
          REMARKS := remarks }
      isDelete := false }
  | .update tx dealerID msisdn mpin balance status transAmount transType remarks =>
    { txId := tx.txId, timestamp := tx.ts
      value := jsonMarshal
        { DEALERID := dealerID, MSISDN := msisdn, MPIN := mpin, BALANCE := balance,
          STATUS := status, TRANSAMOUNT := transAmount, TRANSTYPE := transType,
          REMARKS := remarks }
      isDelete := false }
  | .delete tx _ =>
    { txId := tx.txId, timestamp := tx.ts, value := Bytes.raw [], isDelete := true }

/-- Dispatch one invocation to the corresponding endpoint. -/
def applyOp (L : Ledger) : Op → Except ChainErr Ledger
  | .create tx dealerID msisdn mpin balance status transAmount transType remarks =>
    CreateAsset L tx dealerID msisdn mpin balance status transAmount transType remarks
  | .update tx dealerID msisdn mpin balance status transAmount transType remarks =>
    UpdateAsset L tx dealerID msisdn mpin balance status transAmount transType remarks
  | .delete tx dealerID => DeleteAsset L tx dealerID

/-- Commit semantics of one invocation: an endpoint that returns an error
leaves the ledger unchanged. -/
def runOp (L : Ledger) (op : Op) : Ledger :=
  match applyOp L op with
  | .ok L2 => L2
  | .error _ => L

/-- Replay a call sequence, oldest first. -/
def runTrace (L : Ledger) : List Op → Ledger
  | [] => L
  | op :: rest => runTrace (runOp L op) rest

/-- Returns `true` when the invocation would commit (not return an error). -/
def opOk (L : Ledger) (op : Op) : Bool :=
  match applyOp L op with
  | .ok _ => true
  | .error _ => false

/-- Returns `true` when every invocation of the sequence commits, each against
the state left by its predecessors. -/
def allSucceed : Ledger → List Op → Bool
  | _, [] => true
  | L, op :: rest => opOk L op && allSucceed (runOp L op) rest

/-! ## Store lemmas -/

theorem getKV_putKV (w : List (String × Bytes)) (k k2 : String) (v : Bytes) :
    getKV (putKV w k v) k2 = if k2 = k then some v else getKV w k2 := by
  induction w with
  | nil =>
    simp [putKV, getKV]
  | cons p rest ih =>
    obtain ⟨k1, v1⟩ := p
    simp only [putKV]
    by_cases hlt : k < k1
    · rw [if_pos hlt]
      by_cases h2 : k2 = k
      · simp [getKV, h2]
      · simp [getKV, h2]
    · rw [if_neg hlt]
      by_cases hk1 : k = k1
      · rw [if_pos hk1]
        by_cases h2 : k2 = k
        · simp [getKV, h2]
        · have h21 : ¬ k2 = k1 := by rw [← hk1]; exact h2
          simp [getKV, h2, h21]
      · rw [if_neg hk1]
        by_cases h21 : k2 = k1
        · have h2 : ¬ k2 = k := by rw [h21]; intro hc; exact hk1 hc.symm
          have hk1s : ¬ k1 = k := fun hc => hk1 hc.symm
          simp [getKV, h21, h2, hk1s]
        · simp [getKV, h21, ih]

theorem getKV_delKV (w : List (String × Bytes)) (k k2 : String) :
    getKV (delKV w k) k2 = if k2 = k then none else getKV w k2 := by
  induction w with
  | nil =>
    simp [delKV, getKV]
  | cons p rest ih =>
    obtain ⟨k1, v1⟩ := p
    simp only [delKV]
    by_cases hk1 : k = k1
    · rw [if_pos hk1, ih]
      by_cases h2 : k2 = k
      · simp [h2]
      · have h21 : ¬ k2 = k1 := by rw [← hk1]; exact h2
        simp [getKV, h2, h21]
    · rw [if_neg hk1]
      by_cases h21 : k2 = k1
      · have h2 : ¬ k2 = k := by rw [h21]; intro hc; exact hk1 hc.symm
        have hk1s : ¬ k1 = k := fun hc => hk1 hc.symm
        simp [getKV, h21, h2, hk1s]
      · simp [getKV, h21, ih]

theorem GetState_PutState (L : Ledger) (tx : TxCtx) (k : String) (v : Bytes) (k2 : String) :
    GetState (PutState L tx k v) k2 = if k2 = k then some v else GetState L k2 := by
  simp [GetState, PutState, getKV_putKV]

theorem GetState_DelState (L : Ledger) (tx : TxCtx) (k k2 : String) :
    GetState (DelState L tx k) k2 = if k2 = k then none else GetState L k2 := by
  simp [GetState, DelState, getKV_delKV]

theorem hist_PutState (L : Ledger) (tx : TxCtx) (k : String) (v : Bytes) (k2 : String) :
    (PutState L tx k v).hist k2 =
      if k2 = k then
        L.hist k ++ [{ txId := tx.txId, timestamp := tx.ts, value := v, isDelete := false }]
      else L.hist k2 := rfl

theorem hist_DelState (L : Ledger) (tx : TxCtx) (k k2 : String) :
    (DelState L tx k).hist k2 =
      if k2 = k then
        L.hist k ++ [{ txId := tx.txId, timestamp := tx.ts, value := Bytes.raw [], isDelete := true }]
      else L.hist k2 := rfl

theorem getKV_eq_none_forall (w : List (String × Bytes)) (k : String)
    (h : getKV w k = none) : ∀ p ∈ w, p.1 ≠ k := by
  induction w with
  | nil => intro p hp; cases hp
  | cons q rest ih =>
    obtain ⟨k1, v1⟩ := q
    intro p hp
    simp only [getKV] at h
    by_cases hk : k = k1
    · simp [hk] at h
    · simp only [if_neg hk] at h
      rcases List.mem_cons.mp hp with hp1 | hp2
      · subst hp1; exact fun hc => hk hc.symm
      · exact ih h p hp2

theorem putKV_perm (w : List (String × Bytes)) (k : String) (v : Bytes)
    (h : getKV w k = none) : (putKV w k v).Perm ((k, v) :: w) := by
  induction w with
  | nil => simp [putKV]
  | cons p rest ih =>
    obtain ⟨k1, v1⟩ := p
    simp only [getKV] at h
    by_cases hk : k = k1
    · simp [hk] at h
    · rw [if_neg hk] at h
      by_cases hlt : k < k1
      · have hput : putKV ((k1, v1) :: rest) k v = (k, v) :: (k1, v1) :: rest := by
          simp only [putKV]; rw [if_pos hlt]
        rw [hput]
      · have hput : putKV ((k1, v1) :: rest) k v = (k1, v1) :: putKV rest k v := by
          simp only [putKV]; rw [if_neg hlt, if_neg hk]
        rw [hput]
        exact ((ih h).cons (k1, v1)).trans (List.Perm.swap (k, v) (k1, v1) rest)

/-! ## Endpoint characterizations -/

theorem CreateAsset_of_exists (L : Ledger) (tx : TxCtx)
    (dealerID msisdn mpin : String) (balance : Int) (status : String)
    (transAmount : Int) (transType remarks : String)
    (hex : AssetExists L dealerID = true) :
    CreateAsset L tx dealerID msisdn mpin balance status transAmount transType remarks
      = .error (.alreadyExists dealerID) := by
  simp [CreateAsset, hex]

theorem CreateAsset_of_fresh (L : Ledger) (tx : TxCtx)
    (dealerID msisdn mpin : String) (balance : Int) (status : String)
    (transAmount : Int) (transType remarks : String)
    (hex : AssetExists L dealerID = false) :
    CreateAsset L tx dealerID msisdn mpin balance status transAmount transType remarks
      = .ok (PutState L tx dealerID (jsonMarshal
          { DEALERID := dealerID, MSISDN := msisdn, MPIN := mpin, BALANCE := balance,
            STATUS := status, TRANSAMOUNT := transAmount, TRANSTYPE := transType,
            REMARKS := remarks })) := by
  simp [CreateAsset, hex]

theorem UpdateAsset_of_exists (L : Ledger) (tx : TxCtx)
    (dealerID msisdn mpin : String) (balance : Int) (status : String)
    (transAmount : Int) (transType remarks : String)
    (hex : AssetExists L dealerID = true) :
    UpdateAsset L tx dealerID msisdn mpin balance status transAmount transType remarks
      = .ok (PutState L tx dealerID (jsonMarshal
          { DEALERID := dealerID, MSISDN := msisdn, MPIN := mpin, BALANCE := balance,
            STATUS := status, TRANSAMOUNT := transAmount, TRANSTYPE := transType,
            REMARKS := remarks })) := by
  simp [UpdateAsset, hex]

theorem UpdateAsset_of_fresh (L : Ledger) (tx : TxCtx)
    (dealerID msisdn mpin : String) (balance : Int) (status : String)
    (transAmount : Int) (transType remarks : String)
    (hex : AssetExists L dealerID = false) :
    UpdateAsset L tx dealerID msisdn mpin balance status transAmount transType remarks
      = .error (.notFound dealerID) := by
  simp [UpdateAsset, hex]

theorem DeleteAsset_of_exists (L : Ledger) (tx : TxCtx) (dealerID : String)
    (hex : AssetExists L dealerID = true) :
    DeleteAsset L tx dealerID = .ok (DelState L tx dealerID) := by
  simp [DeleteAsset, hex]

theorem DeleteAsset_of_fresh (L : Ledger) (tx : TxCtx) (dealerID : String)
    (hex : AssetExists L dealerID = false) :
    DeleteAsset L tx dealerID = .error (.notFound dealerID) := by
  simp [DeleteAsset, hex]

theorem runOp_of_err (L : Ledger) (op : Op) (h : opOk L op = false) :
    runOp L op = L := by
  cases happ : applyOp L op with
  | ok L2 => simp [opOk, happ] at h
  | error e => simp [runOp, happ]

theorem hist_runOp (L : Ledger) (op : Op) (h : opOk L op = true) (k : String) :
    (runOp L op).hist k = if k = op.key then L.hist k ++ [op.mod] else L.hist k := by
  cases op with
  | create tx id ms mp bal st ta tt rm =>
    cases hex : AssetExists L id with
    | true => simp [opOk, applyOp, CreateAsset, hex] at h
    | false =>
      simp only [runOp, applyOp, CreateAsset_of_fresh L tx id ms mp bal st ta tt rm hex,
        PutState, Op.key, Op.mod, jsonMarshal]
      split_ifs with hk
      · rw [hk]
      · rfl
  | update tx id ms mp bal st ta tt rm =>
    cases hex : AssetExists L id with
    | false => simp [opOk, applyOp, UpdateAsset, hex] at h
    | true =>
      simp only [runOp, applyOp, UpdateAsset_of_exists L tx id ms mp bal st ta tt rm hex,
        PutState, Op.key, Op.mod, jsonMarshal]
      split_ifs with hk
      · rw [hk]
      · rfl
  | delete tx id =>
    cases hex : AssetExists L id with
    | false => simp [opOk, applyOp, DeleteAsset, hex] at h
    | true =>
      simp only [runOp, applyOp, DeleteAsset_of_exists L tx id hex,
        DelState, Op.key, Op.mod]
      split_ifs with hk
      · rw [hk]
      · rfl

theorem hist_runTrace (ops : List Op) (L : Ledger) (h : allSucceed L ops = true)
    (k : String) :
    (runTrace L ops).hist k
      = L.hist k ++ (ops.filter (fun o => o.key == k)).map Op.mod := by
  induction ops generalizing L with
  | nil => simp [runTrace, allSucceed, List.filter]
  | cons op rest ih =>
    simp only [allSucceed, Bool.and_eq_true] at h
    obtain ⟨h1, h2⟩ := h
    simp only [runTrace]
    rw [ih (runOp L op) h2, hist_runOp L op h1 k, List.filter_cons]
    by_cases hk : op.key = k
    · simp [hk, List.append_assoc]
    · have hk2 : ¬ k = op.key := fun hc => hk hc.symm
      simp [hk, hk2]

/-! ## The world-state invariant: stored records carry their key -/

/-- Every live value is the encoding of a record whose `DEALERID` equals
the key it is stored under. -/
def WorldInv (L : Ledger) : Prop :=
  ∀ k b, GetState L k = some b → ∃ a, b = Bytes.enc a ∧ a.DEALERID = k

theorem worldInv_empty : WorldInv Ledger.empty := by
  intro k b h
  simp [GetState, Ledger.empty, getKV] at h

theorem worldInv_PutState (L : Ledger) (tx : TxCtx) (k : String) (a : Asset)
    (hinv : WorldInv L) (ha : a.DEALERID = k) :
    WorldInv (PutState L tx k (Bytes.enc a)) := by
  intro k2 b h
  rw [GetState_PutState] at h
  by_cases h2 : k2 = k
  · rw [if_pos h2] at h
    refine ⟨a, ?_, ?_⟩
    · injection h with h3
      exact h3.symm
    · rw [h2]; exact ha
  · rw [if_neg h2] at h
    exact hinv k2 b h

theorem worldInv_DelState (L : Ledger) (tx : TxCtx) (k : String)
    (hinv : WorldInv L) : WorldInv (DelState L tx k) := by
  intro k2 b h
  rw [GetState_DelState] at h
  by_cases h2 : k2 = k
  · rw [if_pos h2] at h
    cases h
  · rw [if_neg h2] at h
    exact hinv k2 b h

theorem worldInv_runOp (L : Ledger) (op : Op) (hinv : WorldInv L) :
    WorldInv (runOp L op) := by
  cases op with
  | create tx id ms mp bal st ta tt rm =>
    cases hex : AssetExists L id with
    | true =>
      rw [runOp_of_err]
      · exact hinv
      · simp [opOk, applyOp, CreateAsset, hex]
    | false =>
      have hrun : runOp L (Op.create tx id ms mp bal st ta tt rm)
          = PutState L tx id (jsonMarshal
              { DEALERID := id, MSISDN := ms, MPIN := mp, BALANCE := bal, STATUS := st,
                TRANSAMOUNT := ta, TRANSTYPE := tt, REMARKS := rm }) := by
        simp [runOp, applyOp, CreateAsset_of_fresh L tx id ms mp bal st ta tt rm hex]
      rw [hrun]
      exact worldInv_PutState L tx id _ hinv rfl
  | update tx id ms mp bal st ta tt rm =>
    cases hex : AssetExists L id with
    | false =>
      rw [runOp_of_err]
      · exact hinv
      · simp [opOk, applyOp, UpdateAsset, hex]
    | true =>
      have hrun : runOp L (Op.update tx id ms mp bal st ta tt rm)
          = PutState L tx id (jsonMarshal
              { DEALERID := id, MSISDN := ms, MPIN := mp, BALANCE := bal, STATUS := st,
                TRANSAMOUNT := ta, TRANSTYPE := tt, REMARKS := rm }) := by
        simp [runOp, applyOp, UpdateAsset_of_exists L tx id ms mp bal st ta tt rm hex]
      rw [hrun]
      exact worldInv_PutState L tx id _ hinv rfl
  | delete tx id =>
    cases hex : AssetExists L id with
    | false =>
      rw [runOp_of_err]
      · exact hinv
      · simp [opOk, applyOp, DeleteAsset, hex]
    | true =>
      have hrun : runOp L (Op.delete tx id) = DelState L tx id := by
        simp [runOp, applyOp, DeleteAsset_of_exists L tx id hex]
      rw [hrun]
      exact worldInv_DelState L tx id hinv

theorem worldInv_runTrace (L : Ledger) (ops : List Op) (hinv : WorldInv L) :
    WorldInv (runTrace L ops) := by
  induction ops generalizing L with
  | nil => exact hinv
  | cons op rest ih => exact ih (runOp L op) (worldInv_runOp L op hinv)

/-! ## History projection lemmas -/

/-- A history-stream entry the chaincode can fully project: its value is
empty, or it unmarshals. -/
def wfMod (m : KeyModification) : Bool :=
  m.value.isEmpty || (jsonUnmarshal m.value).isSome

/-- The row `GetAssetHistory` emits for one history-stream entry: the
placeholder asset when the value is empty, the decoded record otherwise,
with transaction id, timestamp and deletion flag copied from the entry. -/
def entryOf (dealerID : String) (m : KeyModification) : HistoryQueryResult :=
  { record :=
      if m.value.isEmpty then placeholderAsset dealerID
      else (jsonUnmarshal m.value).getD (placeholderAsset dealerID)
    txId := m.txId, timestamp := m.timestamp, isDelete := m.isDelete }

theorem historyRows_ok (dealerID : String) (ms : List KeyModification)
    (h : ∀ m ∈ ms, wfMod m = true) :
    historyRows dealerID ms = .ok (ms.map (entryOf dealerID)) := by
  induction ms with
  | nil => simp [historyRows]
  | cons m rest ih =>
    have hm : wfMod m = true := h m (List.mem_cons_self _ _)
    have hrest := ih (fun m2 hm2 => h m2 (List.mem_cons_of_mem _ hm2))
    cases he : m.value.isEmpty with
    | true =>
      simp [historyRows, he, hrest, entryOf]
    | false =>
      have hsome : (jsonUnmarshal m.value).isSome = true := by
        simp [wfMod, he] at hm
        exact hm
      obtain ⟨a, ha⟩ := Option.isSome_iff_exists.mp hsome
      simp [historyRows, he, ha, hrest, entryOf]

theorem historyRows_wf (dealerID : String) (ms : List KeyModification)
    (es : List HistoryQueryResult) (h : historyRows dealerID ms = .ok es) :
    ∀ m ∈ ms, wfMod m = true := by
  induction ms generalizing es with
  | nil => intro m hm; cases hm
  | cons m rest ih =>
    intro m2 hm2
    rcases List.mem_cons.mp hm2 with rfl | hm2r
    · cases he : m2.value.isEmpty with
      | true => simp [wfMod, he]
      | false =>
        cases hu : jsonUnmarshal m2.value with
        | none => exfalso; simp [historyRows, he, hu] at h
        | some a => simp [wfMod, he, hu]
    · cases he : m.value.isEmpty with
      | true =>
        cases hr : historyRows dealerID rest with
        | error e => exfalso; simp [historyRows, he, hr] at h
        | ok tl => exact ih tl hr m2 hm2r
      | false =>
        cases hu : jsonUnmarshal m.value with
        | none => exfalso; simp [historyRows, he, hu] at h
        | some a =>
          cases hr : historyRows dealerID rest with
          | error e => exfalso; simp [historyRows, he, hu, hr] at h
          | ok tl => exact ih tl hr m2 hm2r

/-! ## Full-scan decoding lemmas -/

/-- The record one scanned entry decodes to (total helper used to state
the successful scan result). -/
def decOne (p : String × Bytes) : Asset :=
  (jsonUnmarshal p.2).getD (placeholderAsset p.1)

theorem decodeAll_ok (w : List (String × Bytes))
    (h : ∀ p ∈ w, (jsonUnmarshal p.2).isSome = true) :
    decodeAll w = .ok (w.map decOne) := by
  induction w with
  | nil => simp [decodeAll]
  | cons p rest ih =>
    obtain ⟨k1, v1⟩ := p
    have hp := h (k1, v1) (List.mem_cons_self _ _)
    obtain ⟨a, ha⟩ := Option.isSome_iff_exists.mp hp
    have hrest := ih (fun q hq => h q (List.mem_cons_of_mem _ hq))
    simp [decodeAll, ha, hrest, decOne]

theorem decodeAll_error (w : List (String × Bytes))
    (h : ∃ p ∈ w, jsonUnmarshal p.2 = none) :
    decodeAll w = .error .decodeError := by
  induction w with
  | nil =>
    obtain ⟨p, hp, _⟩ := h
    cases hp
  | cons q rest ih =>
    obtain ⟨k1, v1⟩ := q
    obtain ⟨p, hp, hnone⟩ := h
    rcases List.mem_cons.mp hp with rfl | hpr
    · simp [decodeAll, hnone]
    · cases hu : jsonUnmarshal v1 with
      | none => simp [decodeAll, hu]
      | some a =>
        have hrest := ih ⟨p, hpr, hnone⟩
        simp [decodeAll, hu, hrest]

/-! ## Small facts about invocation modifications -/

theorem wfMod_opMod (op : Op) : wfMod op.mod = true := by
  cases op <;> simp [Op.mod, wfMod, jsonMarshal, jsonUnmarshal, Bytes.isEmpty]

theorem opMod_timestamp (op : Op) : op.mod.timestamp = op.ts := by
  cases op <;> rfl

/-! ## Batches of create calls -/

/-- The arguments of one `CreateAsset` invocation. -/
structure CreateArgs where
  tx : TxCtx
  dealerID : String
  msisdn : String
  mpin : String
  balance : Int
  status : String
  transAmount : Int
  transType : String
  remarks : String

/-- The record a `CreateAsset` invocation with these arguments stores. -/
def CreateArgs.asset (c : CreateArgs) : Asset :=
  { DEALERID := c.dealerID, MSISDN := c.msisdn, MPIN := c.mpin, BALANCE := c.balance,
    STATUS := c.status, TRANSAMOUNT := c.transAmount, TRANSTYPE := c.transType,
    REMARKS := c.remarks }

/-- The invocation itself. -/
def CreateArgs.op (c : CreateArgs) : Op :=
  .create c.tx c.dealerID c.msisdn c.mpin c.balance c.status c.transAmount
    c.transType c.remarks

theorem world_creates_perm (cs : List CreateArgs) (L : Ledger)
    (hnd : (cs.map (fun c => c.dealerID)).Nodup)
    (hfresh : ∀ c ∈ cs, GetState L c.dealerID = none) :
    ((runTrace L (cs.map CreateArgs.op)).world).Perm
      ((cs.map (fun c => (c.dealerID, jsonMarshal c.asset))) ++ L.world) := by
  induction cs generalizing L with
  | nil => simp [runTrace]
  | cons c rest ih =>
    have hfc : GetState L c.dealerID = none := hfresh c (List.mem_cons_self _ _)
    have hex : AssetExists L c.dealerID = false := by
      simp [AssetExists, hfc]
    have hrun : runOp L c.op = PutState L c.tx c.dealerID (jsonMarshal c.asset) := by
      simp [CreateArgs.op, runOp, applyOp, CreateArgs.asset,
        CreateAsset_of_fresh L c.tx c.dealerID c.msisdn c.mpin c.balance c.status
          c.transAmount c.transType c.remarks hex]
    simp only [List.map_cons, runTrace]
    rw [hrun]
    simp only [List.map_cons, List.nodup_cons] at hnd
    obtain ⟨hnotin, hndr⟩ := hnd
    have hfresh2 : ∀ c2 ∈ rest,
        GetState (PutState L c.tx c.dealerID (jsonMarshal c.asset)) c2.dealerID = none := by
      intro c2 hc2
      rw [GetState_PutState]
      have hne : ¬ c2.dealerID = c.dealerID := by
        intro hc
        exact hnotin (hc ▸ (List.mem_map_of_mem _ hc2))
      rw [if_neg hne]
      exact hfresh c2 (List.mem_cons_of_mem _ hc2)
    have hperm := ih (PutState L c.tx c.dealerID (jsonMarshal c.asset)) hndr hfresh2
    refine hperm.trans ?_
    have hput : (putKV L.world c.dealerID (jsonMarshal c.asset)).Perm
        ((c.dealerID, jsonMarshal c.asset) :: L.world) :=
      putKV_perm L.world c.dealerID (jsonMarshal c.asset) hfc
    have hstep : ((PutState L c.tx c.dealerID (jsonMarshal c.asset)).world).Perm
        ((c.dealerID, jsonMarshal c.asset) :: L.world) := hput
    refine (List.Perm.append_left _ hstep).trans ?_
    exact List.perm_middle

/-! ## Sample data for concrete instantiations -/

def tx0 : TxCtx := { txId := "tx0", ts := 0 }

def tx1 : TxCtx := { txId := "tx1", ts := 1 }

def tx2 : TxCtx := { txId := "tx2", ts := 2 }

def asset1 : Asset :=
  { DEALERID := "D1", MSISDN := "9990001111", MPIN := "1234", BALANCE := 100,
    STATUS := "ACTIVE", TRANSAMOUNT := 0, TRANSTYPE := "NONE", REMARKS := "init" }

/-- A ledger holding `asset1` under `"D1"`. -/
def L1 : Ledger := PutState Ledger.empty tx0 "D1" (jsonMarshal asset1)

/-! ## Claims -/

/-- C1: a successful `create(k, fields...)` followed by `read(k)` returns a
record whose eight fields equal the inputs of the create call,
field for field. -/
theorem create_then_read (L : Ledger) (tx : TxCtx) (dealerID msisdn mpin : String)
    (balance : Int) (status : String) (transAmount : Int) (transType remarks : String)
    (L2 : Ledger)
    (h : CreateAsset L tx dealerID msisdn mpin balance status transAmount transType remarks
          = .ok L2) :
    ReadAsset L2 dealerID = .ok
      { DEALERID := dealerID, MSISDN := msisdn, MPIN := mpin, BALANCE := balance,
        STATUS := status, TRANSAMOUNT := transAmount, TRANSTYPE := transType,
        REMARKS := remarks } := by
  cases hex : AssetExists L dealerID with
  | true =>
    rw [CreateAsset_of_exists L tx dealerID msisdn mpin balance status transAmount
      transType remarks hex] at h
    cases h
  | false =>
    rw [CreateAsset_of_fresh L tx dealerID msisdn mpin balance status transAmount
      transType remarks hex] at h
    injection h with h2
    subst h2
    simp [ReadAsset, ReadAssetG, GetState_PutState, jsonMarshal, jsonUnmarshal]

theorem create_then_read_witness :
    ReadAsset (PutState Ledger.empty tx0 "D1" (jsonMarshal asset1)) "D1" = .ok asset1 :=
  create_then_read Ledger.empty tx0 "D1" "9990001111" "1234" 100 "ACTIVE" 0 "NONE" "init"
    (PutState Ledger.empty tx0 "D1" (jsonMarshal asset1)) rfl

/-- C2: `create(k, fields...)` checks existence first: on a live key it
fails with `AlreadyExists` and the committed state (and in particular the
stored value for `k`) is unchanged; on a fresh key it encodes the full
record and writes it with put. -/
theorem create_guard (L : Ledger) (tx : TxCtx) (dealerID msisdn mpin : String)
    (balance : Int) (status : String) (transAmount : Int) (transType remarks : String) :
    (AssetExists L dealerID = true →
      CreateAsset L tx dealerID msisdn mpin balance status transAmount transType remarks
        = .error (.alreadyExists dealerID)
      ∧ runOp L (.create tx dealerID msisdn mpin balance status transAmount transType remarks)
        = L)
    ∧ (AssetExists L dealerID = false →
      CreateAsset L tx dealerID msisdn mpin balance status transAmount transType remarks
        = .ok (PutState L tx dealerID (jsonMarshal
            { DEALERID := dealerID, MSISDN := msisdn, MPIN := mpin, BALANCE := balance,
              STATUS := status, TRANSAMOUNT := transAmount, TRANSTYPE := transType,
              REMARKS := remarks }))) := by
  constructor
  · intro hex
    refine ⟨CreateAsset_of_exists L tx dealerID msisdn mpin balance status transAmount
      transType remarks hex, ?_⟩
    apply runOp_of_err
    simp [opOk, applyOp,
      CreateAsset_of_exists L tx dealerID msisdn mpin balance status transAmount
        transType remarks hex]
  · intro hex
    exact CreateAsset_of_fresh L tx dealerID msisdn mpin balance status transAmount
      transType remarks hex

theorem create_guard_witness :
    (CreateAsset L1 tx1 "D1" "1112223333" "0000" 7 "X" 7 "Y" "z"
        = .error (.alreadyExists "D1")
      ∧ runOp L1 (.create tx1 "D1" "1112223333" "0000" 7 "X" 7 "Y" "z") = L1)
    ∧ CreateAsset Ledger.empty tx0 "D1" "9990001111" "1234" 100 "ACTIVE" 0 "NONE" "init"
        = .ok (PutState Ledger.empty tx0 "D1" (jsonMarshal asset1)) :=
  ⟨(create_guard L1 tx1 "D1" "1112223333" "0000" 7 "X" 7 "Y" "z").1 rfl,
   (create_guard Ledger.empty tx0 "D1" "9990001111" "1234" 100 "ACTIVE" 0 "NONE" "init").2 rfl⟩

/-- C3: `update(k, fields...)` fails with `NotFound` and creates no record
when `k` has no live record; when one exists it replaces the entire stored
record with one built only from the supplied arguments, so zero-valued
arguments overwrite prior field values rather than being merged. -/
theorem update_guard (L : Ledger) (tx : TxCtx) (dealerID msisdn mpin : String)
    (balance : Int) (status : String) (transAmount : Int) (transType remarks : String) :
    (AssetExists L dealerID = false →
      UpdateAsset L tx dealerID msisdn mpin balance status transAmount transType remarks
        = .error (.notFound dealerID)
      ∧ runOp L (.update tx dealerID msisdn mpin balance status transAmount transType remarks)
        = L
      ∧ AssetExists
          (runOp L (.update tx dealerID msisdn mpin balance status transAmount transType remarks))
          dealerID = false)
    ∧ (AssetExists L dealerID = true →
      UpdateAsset L tx dealerID msisdn mpin balance status transAmount transType remarks
        = .ok (PutState L tx dealerID (jsonMarshal
            { DEALERID := dealerID, MSISDN := msisdn, MPIN := mpin, BALANCE := balance,
              STATUS := status, TRANSAMOUNT := transAmount, TRANSTYPE := transType,
              REMARKS := remarks }))
      ∧ ReadAsset (PutState L tx dealerID (jsonMarshal
            { DEALERID := dealerID, MSISDN := msisdn, MPIN := mpin, BALANCE := balance,
              STATUS := status, TRANSAMOUNT := transAmount, TRANSTYPE := transType,
              REMARKS := remarks })) dealerID
        = .ok { DEALERID := dealerID, MSISDN := msisdn, MPIN := mpin, BALANCE := balance,
                STATUS := status, TRANSAMOUNT := transAmount, TRANSTYPE := transType,
                REMARKS := remarks }) := by
  constructor
  · intro hex
    have herr := UpdateAsset_of_fresh L tx dealerID msisdn mpin balance status transAmount
      transType remarks hex
    have hrun : runOp L
        (.update tx dealerID msisdn mpin balance status transAmount transType remarks) = L := by
      apply runOp_of_err
      simp [opOk, applyOp, herr]
    refine ⟨herr, hrun, ?_⟩
    rw [hrun]
    exact hex
  · intro hex
    refine ⟨UpdateAsset_of_exists L tx dealerID msisdn mpin balance status transAmount
      transType remarks hex, ?_⟩
    simp [ReadAsset, ReadAssetG, GetState_PutState, jsonMarshal, jsonUnmarshal]

theorem update_guard_witness :
    (UpdateAsset Ledger.empty tx1 "D1" "1112223333" "0000" 150 "ACTIVE" 50 "CREDIT" "topup"
        = .error (.notFound "D1")
      ∧ runOp Ledger.empty
          (.update tx1 "D1" "1112223333" "0000" 150 "ACTIVE" 50 "CREDIT" "topup")
        = Ledger.empty
      ∧ AssetExists
          (runOp Ledger.empty
            (.update tx1 "D1" "1112223333" "0000" 150 "ACTIVE" 50 "CREDIT" "topup")) "D1"
        = false)
    ∧ (UpdateAsset L1 tx1 "D1" "1112223333" "0000" 150 "ACTIVE" 50 "CREDIT" "topup"
        = .ok (PutState L1 tx1 "D1" (jsonMarshal
            { DEALERID := "D1", MSISDN := "1112223333", MPIN := "0000", BALANCE := 150,
              STATUS := "ACTIVE", TRANSAMOUNT := 50, TRANSTYPE := "CREDIT",
              REMARKS := "topup" }))
      ∧ ReadAsset (PutState L1 tx1 "D1" (jsonMarshal
            { DEALERID := "D1", MSISDN := "1112223333", MPIN := "0000", BALANCE := 150,
              STATUS := "ACTIVE", TRANSAMOUNT := 50, TRANSTYPE := "CREDIT",
              REMARKS := "topup" })) "D1"
        = .ok { DEALERID := "D1", MSISDN := "1112223333", MPIN := "0000", BALANCE := 150,
                STATUS := "ACTIVE", TRANSAMOUNT := 50, TRANSTYPE := "CREDIT",
                REMARKS := "topup" }) :=
  ⟨(update_guard Ledger.empty tx1 "D1" "1112223333" "0000" 150 "ACTIVE" 50 "CREDIT" "topup").1 rfl,
   (update_guard L1 tx1 "D1" "1112223333" "0000" 150 "ACTIVE" 50 "CREDIT" "topup").2 rfl⟩

/-- C8: `read(k)` fails with `StoreUnavailable` when the store query
itself errors, with `NotFound` when the store holds no value for `k`,
with `DecodeError` when the stored bytes do not parse, and otherwise
returns the decoded record. -/
theorem read_error_taxonomy (dealerID e : String) (bs : Bytes) (a : Asset) :
    ReadAssetG dealerID (.error e) = .error (.storeUnavailable e)
    ∧ ReadAssetG dealerID (.ok none) = .error (.notFound dealerID)
    ∧ (jsonUnmarshal bs = none →
        ReadAssetG dealerID (.ok (some bs)) = .error .decodeError)
    ∧ (jsonUnmarshal bs = some a →
        ReadAssetG dealerID (.ok (some bs)) = .ok a) := by
  refine ⟨rfl, rfl, ?_, ?_⟩
  · intro h
    simp [ReadAssetG, h]
  · intro h
    simp [ReadAssetG, h]

theorem read_error_taxonomy_witness :
    ReadAssetG "D1" (.error "connection lost") = .error (.storeUnavailable "connection lost")
    ∧ ReadAssetG "D1" (.ok none) = .error (.notFound "D1")
    ∧ ReadAssetG "D1" (.ok (some (Bytes.raw [123]))) = .error .decodeError
    ∧ ReadAssetG "D1" (.ok (some (jsonMarshal asset1))) = .ok asset1 :=
  ⟨(read_error_taxonomy "D1" "connection lost" (Bytes.raw [123]) asset1).1,
   (read_error_taxonomy "D1" "connection lost" (Bytes.raw [123]) asset1).2.1,
   (read_error_taxonomy "D1" "connection lost" (Bytes.raw [123]) asset1).2.2.1 rfl,
   (read_error_taxonomy "D1" "connection lost" (jsonMarshal asset1) asset1).2.2.2 rfl⟩

/-- A ledger whose store holds a present but empty value for `"D1"`. -/
def emptyValLedger : Ledger :=
  { world := [("D1", Bytes.raw [])], hist := fun _ => [] }

/-- C9, counterexample: the code checks `assetJSON != nil`, so a present
but empty value makes `AssetExists` return `true`, not `false` as
claimed. -/
theorem exists_true_on_empty_value :
    (Bytes.raw []).isEmpty = true
    ∧ GetState emptyValLedger "D1" = some (Bytes.raw [])
    ∧ AssetExists emptyValLedger "D1" = true :=
  ⟨rfl, rfl, rfl⟩

/-- C9, amended: `exists(k)` returns true iff the store holds a value for
`k` at all — whether empty or not; a value is present after a `put` (even
of an empty payload), absent after a `delete` and absent in the empty
store. -/
theorem exists_iff_present (L : Ledger) (k : String) (tx : TxCtx) (v : Bytes) :
    (AssetExists L k = true ↔ ∃ b, GetState L k = some b)
    ∧ AssetExists (PutState L tx k v) k = true
    ∧ AssetExists (DelState L tx k) k = false
    ∧ AssetExists Ledger.empty k = false := by
  refine ⟨?_, ?_, ?_, rfl⟩
  · simp [AssetExists, Option.isSome_iff_exists]
  · simp [AssetExists, GetState_PutState]
  · simp [AssetExists, GetState_DelState]

/-- The tombstone entry a successful delete in transaction `tx` appends
to the history stream of the key. -/
def tombstone (tx : TxCtx) : KeyModification :=
  { txId := tx.txId, timestamp := tx.ts, value := Bytes.raw [], isDelete := true }

/-- C4: `delete(k)` fails with `NotFound` on a dead key; after a
successful `delete(k)`, `exists(k)` is false and `read(k)` fails with
`NotFound`, while the history still holds every prior version followed by
a final entry with `isDelete = true`. -/
theorem delete_behavior (L : Ledger) (tx : TxCtx) (dealerID : String) :
    (AssetExists L dealerID = false →
      DeleteAsset L tx dealerID = .error (.notFound dealerID))
    ∧ (AssetExists L dealerID = true →
      DeleteAsset L tx dealerID = .ok (DelState L tx dealerID)
      ∧ AssetExists (DelState L tx dealerID) dealerID = false
      ∧ ReadAsset (DelState L tx dealerID) dealerID = .error (.notFound dealerID)
      ∧ ∀ es, GetAssetHistory L dealerID = .ok es →
          GetAssetHistory (DelState L tx dealerID) dealerID
            = .ok (es ++ [{ record := placeholderAsset dealerID, txId := tx.txId,
                            timestamp := tx.ts, isDelete := true }])) := by
  constructor
  · exact DeleteAsset_of_fresh L tx dealerID
  · intro hex
    refine ⟨DeleteAsset_of_exists L tx dealerID hex, ?_, ?_, ?_⟩
    · simp [AssetExists, GetState_DelState]
    · simp [ReadAsset, ReadAssetG, GetState_DelState]
    · intro es hok
      simp only [GetAssetHistory] at hok ⊢
      have hwf := historyRows_wf dealerID (L.hist dealerID) es hok
      have hmap := historyRows_ok dealerID (L.hist dealerID) hwf
      rw [hok] at hmap
      injection hmap with hes
      have hh : (DelState L tx dealerID).hist dealerID
          = L.hist dealerID ++ [tombstone tx] := by
        rw [hist_DelState]
        simp [tombstone]
      rw [hh]
      have hwf2 : ∀ m ∈ L.hist dealerID ++ [tombstone tx], wfMod m = true := by
        intro m hm
        rcases List.mem_append.mp hm with h1 | h2
        · exact hwf m h1
        · rcases List.mem_singleton.mp h2 with rfl
          simp [wfMod, tombstone, Bytes.isEmpty]
      rw [historyRows_ok dealerID _ hwf2, List.map_append, hes]
      simp [entryOf, tombstone, Bytes.isEmpty]

theorem delete_behavior_witness :
    DeleteAsset L1 tx1 "D1" = .ok (DelState L1 tx1 "D1")
    ∧ AssetExists (DelState L1 tx1 "D1") "D1" = false
    ∧ ReadAsset (DelState L1 tx1 "D1") "D1" = .error (.notFound "D1")
    ∧ GetAssetHistory (DelState L1 tx1 "D1") "D1"
        = .ok ([{ record := asset1, txId := "tx0", timestamp := 0, isDelete := false }]
            ++ [{ record := placeholderAsset "D1", txId := "tx1", timestamp := 1,
                  isDelete := true }])
    ∧ DeleteAsset Ledger.empty tx1 "DX" = .error (.notFound "DX") := by
  have h := (delete_behavior L1 tx1 "D1").2 rfl
  exact ⟨h.1, h.2.1, h.2.2.1,
    h.2.2.2 [{ record := asset1, txId := "tx0", timestamp := 0, isDelete := false }] rfl,
    (delete_behavior Ledger.empty tx1 "DX").1 rfl⟩

/-- A history-stream entry marked as a deletion that nevertheless carries
a non-empty, decodable value. -/
def badDeleteMod : KeyModification :=
  { txId := "t9", timestamp := 5, value := jsonMarshal asset1, isDelete := true }

/-- A ledger whose history stream for `"D1"` is exactly that entry. -/
def markedLedger : Ledger :=
  { world := [], hist := fun k2 => if k2 = "D1" then [badDeleteMod] else [] }

/-- C5, counterexample: `GetAssetHistory` branches on the emptiness of the
value, not on the deletion mark — on a version marked as a deletion whose
value is non-empty it emits the decoded record, not the placeholder the
claim requires. -/
theorem history_decodes_marked_deletion :
    badDeleteMod.isDelete = true
    ∧ badDeleteMod.value.isEmpty = false
    ∧ GetAssetHistory markedLedger "D1"
        = .ok [{ record := asset1, txId := "t9", timestamp := 5, isDelete := true }]
    ∧ asset1 ≠ placeholderAsset "D1" := by
  refine ⟨rfl, rfl, rfl, ?_⟩
  decide

/-- C5, amended: for every version, the emitted entry copies transaction
id, timestamp and deletion flag from the stream and carries the decoded
record exactly when the value is non-empty — even if the version is
marked as a deletion — and the key-only placeholder record exactly when
the value is empty. -/
theorem history_entry_projection (L : Ledger) (dealerID : String) (m : KeyModification)
    (h : ∀ m2 ∈ L.hist dealerID, wfMod m2 = true) :
    GetAssetHistory L dealerID = .ok ((L.hist dealerID).map (entryOf dealerID))
    ∧ (m.value.isEmpty = true →
        entryOf dealerID m
          = { record := placeholderAsset dealerID, txId := m.txId,
              timestamp := m.timestamp, isDelete := m.isDelete })
    ∧ (∀ a, jsonUnmarshal m.value = some a →
        entryOf dealerID m
          = { record := a, txId := m.txId, timestamp := m.timestamp,
              isDelete := m.isDelete }) := by
  refine ⟨historyRows_ok dealerID _ h, ?_, ?_⟩
  · intro he
    simp [entryOf, he]
  · intro a ha
    have he : m.value.isEmpty = false := by
      cases hv : m.value with
      | enc a2 => rfl
      | raw p => rw [hv] at ha; simp [jsonUnmarshal] at ha
    simp [entryOf, he, ha]

theorem history_entry_projection_witness :
    GetAssetHistory markedLedger "D1"
      = .ok ((markedLedger.hist "D1").map (entryOf "D1"))
    ∧ entryOf "D1" badDeleteMod
      = { record := asset1, txId := "t9", timestamp := 5, isDelete := true } :=
  ⟨(history_entry_projection markedLedger "D1" badDeleteMod (by decide)).1,
   (history_entry_projection markedLedger "D1" badDeleteMod (by decide)).2.2 asset1 rfl⟩

/-- C10: over any sequence of create/update/delete invocations from the
empty store, every record `read(k)` returns has `DEALERID = k`, because
both `CreateAsset` and `UpdateAsset` store a record whose `DEALERID`
field is the key they write under. -/
theorem dealerid_matches_key (ops : List Op) (k : String) (a : Asset)
    (h : ReadAsset (runTrace Ledger.empty ops) k = .ok a) :
    a.DEALERID = k := by
  have hinv := worldInv_runTrace Ledger.empty ops worldInv_empty
  cases hg : GetState (runTrace Ledger.empty ops) k with
  | none =>
    rw [ReadAsset, hg] at h
    simp [ReadAssetG] at h
  | some bs =>
    obtain ⟨a2, hb, hd⟩ := hinv k bs hg
    subst hb
    rw [ReadAsset, hg] at h
    simp [ReadAssetG, jsonUnmarshal] at h
    rw [← h]
    exact hd

theorem dealerid_matches_key_witness : asset1.DEALERID = "D1" :=
  dealerid_matches_key
    [.create tx0 "D1" "9990001111" "1234" 100 "ACTIVE" 0 "NONE" "init"] "D1" asset1 rfl

/-- C6: when every invocation of a trace commits, the history of `k`
yields exactly one entry per create/update/delete call issued against
`k`, in call order, with no reordering or deduplication; when the
commit timestamps assigned by the store are non-decreasing along the trace, so are the
timestamps of the emitted entries. -/
theorem history_matches_trace (ops : List Op) (k : String)
    (hok : allSucceed Ledger.empty ops = true)
    (hts : List.Pairwise (fun a b => a ≤ b) (ops.map Op.ts)) :
    GetAssetHistory (runTrace Ledger.empty ops) k
      = .ok ((ops.filter (fun o => o.key == k)).map (fun o => entryOf k o.mod))
    ∧ List.Pairwise (fun a b => a ≤ b)
        (((ops.filter (fun o => o.key == k)).map (fun o => entryOf k o.mod)).map
          (fun e => e.timestamp)) := by
  have hhist := hist_runTrace ops Ledger.empty hok k
  constructor
  · simp only [GetAssetHistory]
    rw [hhist]
    have hnil : Ledger.empty.hist k = [] := rfl
    rw [hnil, List.nil_append]
    have hwf : ∀ m ∈ (ops.filter (fun o => o.key == k)).map Op.mod, wfMod m = true := by
      intro m hm
      obtain ⟨op, _, rfl⟩ := List.mem_map.mp hm
      exact wfMod_opMod op
    rw [historyRows_ok k _ hwf, List.map_map]
    rfl
  · rw [List.map_map]
    have hcomp : ((fun e : HistoryQueryResult => e.timestamp) ∘ (fun o => entryOf k o.mod))
        = Op.ts := by
      funext o
      simp [Function.comp, entryOf, opMod_timestamp]
    rw [hcomp]
    exact List.Pairwise.sublist
      (List.Sublist.map Op.ts (List.filter_sublist ops)) hts

/-- The create/update/delete scenario of the spec, all against `"D1"`. -/
def demoOps : List Op :=
  [.create tx0 "D1" "9990001111" "1234" 100 "ACTIVE" 0 "NONE" "init",
   .update tx1 "D1" "9990001111" "1234" 150 "ACTIVE" 50 "CREDIT" "topup",
   .delete tx2 "D1"]

theorem GetState_empty (k : String) : GetState Ledger.empty k = none := rfl

theorem history_matches_trace_witness :
    GetAssetHistory (runTrace Ledger.empty demoOps) "D1"
      = .ok ((demoOps.filter (fun o => o.key == "D1")).map (fun o => entryOf "D1" o.mod))
    ∧ List.Pairwise (fun a b => a ≤ b)
        (((demoOps.filter (fun o => o.key == "D1")).map (fun o => entryOf "D1" o.mod)).map
          (fun e => e.timestamp)) :=
  history_matches_trace demoOps "D1"
    (by
      simp [demoOps, allSucceed, opOk, runOp, applyOp, CreateAsset, UpdateAsset,
        DeleteAsset, AssetExists, GetState_PutState, GetState_DelState, GetState_empty,
        jsonMarshal])
    (by decide)

/-- C7: `listAll()` scans the whole world state; any entry whose bytes
fail to decode aborts the whole query with a decode failure (no entry is
skipped); and after a batch of creates on distinct fresh keys it returns
exactly one record per create, each equal to the created record. -/
theorem getAllAssets_spec :
    (∀ L : Ledger, (∃ p ∈ L.world, jsonUnmarshal p.2 = none) →
      GetAllAssets L = .error .decodeError)
    ∧ (∀ cs : List CreateArgs, (cs.map (fun c => c.dealerID)).Nodup →
      ∃ l, GetAllAssets (runTrace Ledger.empty (cs.map CreateArgs.op)) = .ok l
        ∧ l.Perm (cs.map CreateArgs.asset)
        ∧ l.length = cs.length
        ∧ ∀ c ∈ cs, c.asset ∈ l) := by
  constructor
  · intro L h
    exact decodeAll_error L.world h
  · intro cs hnd
    have hfresh : ∀ c ∈ cs, GetState Ledger.empty c.dealerID = none := fun c _ => rfl
    have hperm0 := world_creates_perm cs Ledger.empty hnd hfresh
    have hnil : Ledger.empty.world = [] := rfl
    rw [hnil, List.append_nil] at hperm0
    have hdec : ∀ p ∈ (runTrace Ledger.empty (cs.map CreateArgs.op)).world,
        (jsonUnmarshal p.2).isSome = true := by
      intro p hp
      have hmem := hperm0.mem_iff.mp hp
      obtain ⟨c, _, rfl⟩ := List.mem_map.mp hmem
      simp [jsonMarshal, jsonUnmarshal]
    have hmaps : ((runTrace Ledger.empty (cs.map CreateArgs.op)).world.map decOne).Perm
        (cs.map CreateArgs.asset) := by
      have h1 := hperm0.map decOne
      refine h1.trans ?_
      rw [List.map_map]
      have hco : (decOne ∘ fun c : CreateArgs => (c.dealerID, jsonMarshal c.asset))
          = CreateArgs.asset := by
        funext c
        simp [Function.comp, decOne, jsonMarshal, jsonUnmarshal]
      rw [hco]
    refine ⟨(runTrace Ledger.empty (cs.map CreateArgs.op)).world.map decOne,
      decodeAll_ok _ hdec, hmaps, ?_, ?_⟩
    · rw [hmaps.length_eq, List.length_map]
    · intro c hc
      exact hmaps.mem_iff.mpr (List.mem_map_of_mem _ hc)

/-- Two create invocations on distinct keys. -/
def demoCreates : List CreateArgs :=
  [{ tx := tx0, dealerID := "D1", msisdn := "9990001111", mpin := "1234", balance := 100,
     status := "ACTIVE", transAmount := 0, transType := "NONE", remarks := "init" },
   { tx := tx1, dealerID := "D2", msisdn := "1112223333", mpin := "9999", balance := 50,
     status := "ACTIVE", transAmount := 0, transType := "NONE", remarks := "second" }]

/-- A ledger holding one undecodable value. -/
def corruptLedger : Ledger :=
  { world := [("DX", Bytes.raw [123])], hist := fun _ => [] }

theorem getAllAssets_spec_witness :
    GetAllAssets corruptLedger = .error .decodeError
    ∧ ∃ l, GetAllAssets (runTrace Ledger.empty (demoCreates.map CreateArgs.op)) = .ok l
        ∧ l.Perm (demoCreates.map CreateArgs.asset)
        ∧ l.length = demoCreates.length
        ∧ ∀ c ∈ demoCreates, c.asset ∈ l :=
  ⟨getAllAssets_spec.1 corruptLedger ⟨("DX", Bytes.raw [123]), by decide, rfl⟩,
   getAllAssets_spec.2 demoCreates (by decide)⟩
